import Mathlib

/-!
Verification of the minecraft-ping repository: a shallow embedding of the
binary wire codec (`src/data_types.rs`), the packet framer
(`src/main.rs`), and the chat-component renderer (`src/chat.rs`),
together with proofs about the properties stated in the specification.

Modelling conventions:
* A byte source (`impl Read`) is a finite `List Nat` of byte values
  (each `< 256`); the end of the list is a clean end-of-stream (a Rust
  `Read` at EOF returns `Ok(0)`, so `Bytes`-iteration simply stops).
  An underlying I/O *error* (as opposed to EOF) has no counterpart in
  this pure model; the one code branch that is reachable only through
  such an error is marked below.
* `u8`/`u32` arithmetic is modelled on `Nat` with explicit `% 2 ^ 32`
  where Rust truncates; bitwise `x & 0x7F` is written `x % 128`,
  `x & 0x80 == 0` (for a byte) is written `x / 128 = 0`, and
  `x | CONTINUE_BIT` for `x < 128` is written `x + 128`.
* Rust `String`/`&str` values are modelled as `List Char` (Rust chars
  iterate Unicode scalar values exactly like Lean `Char`).
-/

deriving instance DecidableEq for Except

namespace McPing

/-- Error values of the decoding functions.  The Rust code reports errors as
strings; each constructor stands for one distinct error message of the
source. -/
inductive DecodeErr where
  /-- `data_types.rs:68`: "Could not successfully decode the value because
  there were not enough bytes to read".  In the source this branch is taken
  only when the underlying reader returns an I/O *error* (at plain
  end-of-input the byte iterator stops instead), so a pure byte list never
  produces it. -/
  | varIntNotEnoughBytes (got : Nat)
  /-- `data_types.rs:73`: "Invalid VarInt" (no terminating byte within the
  at most 5 bytes offered by the source). -/
  | invalidVarInt
  /-- `data_types.rs:93`: "Invalid String size {size}" (negative length). -/
  | invalidStringSize (size : Int)
  /-- A failing `read_exact`: fewer bytes available than requested. -/
  | truncated
  /-- `String::from_utf8` failed: the bytes are not valid UTF-8. -/
  | invalidUtf8
  /-- `main.rs:290/320`: "Invalid packet length". -/
  | invalidPacketLength (len : Int)
  /-- `main.rs:299/329`: "The server responded with an unknown packet ID". -/
  | unexpectedPacketId (id : Int)
  /-- `main.rs:310/340`: leftover bytes inside the declared packet length. -/
  | trailingData (left : Nat)
  /-- `data_types.rs:79`: "could not write String because its length
  exceeds the maximum size that can be represented as a VarInt". -/
  | stringTooLong
  deriving Repr, DecidableEq

/-- The loop body of `write_var_int` (`data_types.rs:35-48`): `u` is the
`u32` bit pattern of the value, `i` the loop index, `fuel` the remaining
iterations (`5 - i`).  `next_value = value >> (i*7)`;
`next_value & !SEGMENT_BITS == 0` for a `u32` says exactly that
`next_value < 128`, written here `next / 128 = 0`;
`segment_data = next_value & SEGMENT_BITS` is `next % 128`, and setting the
continuation bit on it adds `128`. -/
def writeVarIntGo (u : Nat) : Nat → Nat → Except DecodeErr (List Nat)
  | _, 0 =>
    -- data_types.rs:51, "Attempting to write more than 5 bytes of data"
    .error .invalidVarInt
  | i, fuel + 1 =>
    if u / 128 ^ i / 128 = 0 then
      .ok [u / 128 ^ i % 128]
    else
      (writeVarIntGo u (i + 1) fuel).map (fun bs => (u / 128 ^ i % 128 + 128) :: bs)

/-- `write_var_int` (`data_types.rs:30-52`).  `value as u32` is the two's
complement bit pattern `(value % 2^32)`. -/
def write_var_int (value : Int) : Except DecodeErr (List Nat) :=
  writeVarIntGo ((value % (2 ^ 32 : Int)).toNat) 0 5

/-- `num as i32` (`data_types.rs:65`): reinterpret a `u32` value as a
signed 32-bit integer. -/
def u32AsI32 (n : Nat) : Int :=
  if n < 2 ^ 31 then (n : Int) else (n : Int) - 2 ^ 32

/-- The loop of `read_var_int` (`data_types.rs:61-70`): iterate over
`input.take(5).bytes()`.  `num |= ((byte & SEGMENT_BITS) as u32) << (i*7)`
is modelled as `num + ((b % 128) * 128 ^ i) % 2 ^ 32`: the `u32` shift
truncates at 32 bits, and `num` only ever has bits below position `7*i`
set, so bitwise-or coincides with addition.  The result is the pair of the
returned value and the bytes left unconsumed in the source (`take(5)` never
pulls a sixth byte from the underlying reader). -/
def readVarIntGo (num i : Nat) : List Nat → Except DecodeErr Nat × List Nat
  | [] =>
    -- iterator exhausted: data_types.rs:73, "Invalid VarInt"
    (.error .invalidVarInt, [])
  | b :: rest =>
    if i < 5 then
      if b / 128 = 0 then (.ok (num + b % 128 * 128 ^ i % 2 ^ 32), rest)
      else readVarIntGo (num + b % 128 * 128 ^ i % 2 ^ 32) (i + 1) rest
    else
      -- the `take(5)` adaptor refuses to read a sixth byte
      (.error .invalidVarInt, b :: rest)

/-- `read_var_int` (`data_types.rs:54-74`), returning the decoded value and
the unconsumed remainder of the source. -/
def read_var_int (input : List Nat) : Except DecodeErr Int × List Nat :=
  match readVarIntGo 0 0 input with
  | (.ok n, rest) => (.ok (u32AsI32 n), rest)
  | (.error e, rest) => (.error e, rest)

example : write_var_int 0 = .ok [0x00] := by decide
example : write_var_int 1 = .ok [0x01] := by decide
example : write_var_int 128 = .ok [0x80, 0x01] := by decide
example : write_var_int 25565 = .ok [0xDD, 0xC7, 0x01] := by decide
example : write_var_int (-1) = .ok [0xFF, 0xFF, 0xFF, 0xFF, 0x0F] := by decide
example : write_var_int (-2147483648) = .ok [0x80, 0x80, 0x80, 0x80, 0x08] := by decide
example : read_var_int [0x80, 0x80, 0x80, 0x80, 0x08] = (.ok (-2147483648), []) := by decide
example : read_var_int [0xFF, 0xFF, 0xFF, 0xFF, 0x0F, 9, 9] = (.ok (-1), [9, 9]) := by decide
example : read_var_int [0xFF] = (.error .invalidVarInt, []) := by decide
example : read_var_int [0xFF, 0xFF, 0xFF, 0xFF, 0xFF, 0xFF, 0xFF] = (.error .invalidVarInt, [0xFF, 0xFF]) := by decide

/-- Core round-trip lemma for the VarInt loops: writing the 7-bit groups of
`u` from position `i` onwards succeeds, emits at most `fuel` bytes, and
reading them back on top of the already-accumulated low groups
`u % 128 ^ i` recovers `u` exactly, leaving trailing bytes untouched. -/
theorem varint_go_roundtrip :
    ∀ fuel i u tail, 0 < fuel → u < 2 ^ 32 → u / 128 ^ i < 128 ^ fuel → i + fuel ≤ 5 →
      ∃ bs, writeVarIntGo u i fuel = .ok bs ∧ bs.length ≤ fuel ∧
        readVarIntGo (u % 128 ^ i) i (bs ++ tail) = (.ok u, tail) := by
  intro fuel
  induction fuel with
  | zero => intro i u tail h; exact absurd h (by omega)
  | succ fuel ih =>
    intro i u tail _ hu hbound hle
    by_cases hterm : u / 128 ^ i / 128 = 0
    · have hi5 : i < 5 := by omega
      have hlt : u / 128 ^ i < 128 := by omega
      refine ⟨[u / 128 ^ i % 128], ?_, by simp, ?_⟩
      · simp [writeVarIntGo, hterm]
      · have hb : u / 128 ^ i % 128 = u / 128 ^ i := Nat.mod_eq_of_lt hlt
        have hmul : u / 128 ^ i * 128 ^ i ≤ u := Nat.div_mul_le_self u (128 ^ i)
        have hcond : u / 128 ^ i % 128 / 128 = 0 :=
          Nat.div_eq_of_lt (Nat.mod_lt _ (by norm_num))
        have hnum : u % 128 ^ i + u / 128 ^ i % 128 % 128 * 128 ^ i % 2 ^ 32 = u := by
          rw [hb, hb, Nat.mod_eq_of_lt (lt_of_le_of_lt hmul hu), Nat.mod_add_div']
        simp only [List.cons_append, List.nil_append, readVarIntGo, if_pos hi5,
          if_pos hcond, hnum]
        rfl
    · have hfuel : 0 < fuel := by
        rcases Nat.eq_zero_or_pos fuel with h0 | h
        · exfalso
          subst h0
          exact hterm (Nat.div_eq_of_lt (by simpa using hbound))
        · exact h
      have hmlt : u / 128 ^ i % 128 < 128 := Nat.mod_lt _ (by norm_num)
      have hdd : u / 128 ^ (i + 1) = u / 128 ^ i / 128 := by
        rw [pow_succ, ← Nat.div_div_eq_div_mul]
      have hbound2 : u / 128 ^ (i + 1) < 128 ^ fuel := by
        rw [hdd]
        have h128 : u / 128 ^ i < 128 ^ fuel * 128 := by
          rw [← pow_succ]; exact hbound
        omega
      obtain ⟨bs, hw, hlen, hr⟩ := ih (i + 1) u tail hfuel hu hbound2 (by omega)
      refine ⟨(u / 128 ^ i % 128 + 128) :: bs, ?_, ?_, ?_⟩
      · simp [writeVarIntGo, hterm, hw, Except.map]
      · simp only [List.length_cons]
        omega
      · have hi5 : i < 5 := by omega
        have hcond : ¬ (u / 128 ^ i % 128 + 128) / 128 = 0 := by omega
        have hnum : u % 128 ^ i + (u / 128 ^ i % 128 + 128) % 128 * 128 ^ i % 2 ^ 32 =
            u % 128 ^ (i + 1) := by
          have h1 : (u / 128 ^ i % 128 + 128) % 128 = u / 128 ^ i % 128 := by omega
          have hilt : (128 : Nat) ^ i ≤ 128 ^ 3 :=
            Nat.pow_le_pow_right (by norm_num) (by omega)
          have hprod : u / 128 ^ i % 128 * 128 ^ i < 2 ^ 32 := by
            calc u / 128 ^ i % 128 * 128 ^ i ≤ 127 * 128 ^ 3 :=
              Nat.mul_le_mul (by omega) hilt
            _ < 2 ^ 32 := by norm_num
          rw [h1, Nat.mod_eq_of_lt hprod, Nat.mod_pow_succ, Nat.mul_comm]
        simp only [List.cons_append, readVarIntGo, if_pos hi5, if_neg hcond, hnum]
        exact hr

/-- `write_var_int` succeeds on every `i32` value, emits at most 5 bytes,
and `read_var_int` run on those bytes (followed by anything) returns the
value and leaves the trailing bytes unconsumed. -/
theorem write_read_var_int (v : Int) (h1 : -(2 ^ 31) ≤ v) (h2 : v < 2 ^ 31)
    (tail : List Nat) :
    ∃ bs, write_var_int v = .ok bs ∧ bs.length ≤ 5 ∧
      read_var_int (bs ++ tail) = (.ok v, tail) := by
  have hu : (v % (2 ^ 32 : Int)).toNat < 2 ^ 32 := by omega
  have hbound : (v % (2 ^ 32 : Int)).toNat / 128 ^ 0 < 128 ^ 5 := by
    rw [pow_zero, Nat.div_one]
    calc (v % (2 ^ 32 : Int)).toNat < 2 ^ 32 := hu
    _ < 128 ^ 5 := by norm_num
  obtain ⟨bs, hw, hlen, hr⟩ :=
    varint_go_roundtrip 5 0 ((v % (2 ^ 32 : Int)).toNat) tail (by norm_num) hu hbound
      (by norm_num)
  refine ⟨bs, hw, hlen, ?_⟩
  rw [pow_zero, Nat.mod_one] at hr
  unfold read_var_int
  rw [hr]
  have hval : u32AsI32 (v % (2 ^ 32 : Int)).toNat = v := by
    unfold u32AsI32
    split <;> omega
  norm_num at hval
  simp [hval]

/-- The VarInt read loop consumes at most `5 - i` further bytes, whatever
the source contains. -/
theorem readVarIntGo_consumption :
    ∀ (input : List Nat) (num i : Nat),
      ∃ k, k ≤ 5 - i ∧ (readVarIntGo num i input).2 = input.drop k := by
  intro input
  induction input with
  | nil => intro num i; exact ⟨0, by omega, rfl⟩
  | cons b rest ih =>
    intro num i
    by_cases hi : i < 5
    · by_cases hb : b / 128 = 0
      · exact ⟨1, by omega, by simp [readVarIntGo, hi, hb]⟩
      · obtain ⟨k, hk, hdrop⟩ := ih (num + b % 128 * 128 ^ i % 2 ^ 32) (i + 1)
        refine ⟨k + 1, by omega, ?_⟩
        simpa [readVarIntGo, hi, hb] using hdrop
    · exact ⟨0, by omega, by simp [readVarIntGo, hi]⟩

/-- The VarInt read loop reports the generic "Invalid VarInt" error exactly
when every byte the source offers among the next `5 - i` has its
continuation bit set (including the case of the source simply ending). -/
theorem readVarIntGo_error_iff :
    ∀ (input : List Nat) (num i : Nat),
      (readVarIntGo num i input).1 = .error .invalidVarInt ↔
        ∀ b ∈ input.take (5 - i), ¬ b / 128 = 0 := by
  intro input
  induction input with
  | nil => intro num i; simp [readVarIntGo]
  | cons b rest ih =>
    intro num i
    by_cases hi : i < 5
    · have htake : (b :: rest).take (5 - i) = b :: rest.take (5 - (i + 1)) := by
        have h5 : 5 - i = (5 - (i + 1)) + 1 := by omega
        rw [h5, List.take_succ_cons]
      by_cases hb : b / 128 = 0
      · simp [readVarIntGo, hi, hb, htake]
      · rw [htake]
        simp only [readVarIntGo, if_pos hi, if_neg hb, List.mem_cons]
        rw [ih]
        constructor
        · intro h c hc
          rcases hc with hc | hc
          · subst hc; exact hb
          · exact h c hc
        · intro h c hc
          exact h c (Or.inr hc)
    · have h0 : 5 - i = 0 := by omega
      simp [readVarIntGo, hi, h0]

/-- The "not enough bytes" error of `data_types.rs:68` is never produced
from a byte sequence: it corresponds to an underlying I/O read *error*,
and a source that merely ends yields the generic "Invalid VarInt" error
instead. -/
theorem readVarIntGo_no_truncated_error :
    ∀ (input : List Nat) (num i n : Nat),
      (readVarIntGo num i input).1 ≠ .error (.varIntNotEnoughBytes n) := by
  intro input
  induction input with
  | nil => intro num i n; simp [readVarIntGo]
  | cons b rest ih =>
    intro num i n
    by_cases hi : i < 5
    · by_cases hb : b / 128 = 0
      · simp [readVarIntGo, hi, hb]
      · simpa [readVarIntGo, hi, hb] using ih _ (i + 1) n
    · simp [readVarIntGo, hi]

/-! ### UTF-8 -/

/-- The UTF-8 encoding of one Unicode scalar value.  A Rust `String`
always holds valid UTF-8, and `value.as_bytes()` (`data_types.rs:82`)
yields exactly the concatenation of these per-character encodings. -/
def utf8EncodeChar (c : Char) : List Nat :=
  if c.toNat < 0x80 then [c.toNat]
  else if c.toNat < 0x800 then
    [0xC0 + c.toNat / 64, 0x80 + c.toNat % 64]
  else if c.toNat < 0x10000 then
    [0xE0 + c.toNat / 4096, 0x80 + c.toNat / 64 % 64, 0x80 + c.toNat % 64]
  else
    [0xF0 + c.toNat / 262144, 0x80 + c.toNat / 4096 % 64,
      0x80 + c.toNat / 64 % 64, 0x80 + c.toNat % 64]

/-- The UTF-8 encoding of a Rust string (modelled as its list of
characters). -/
def utf8Encode (s : List Char) : List Nat :=
  (s.map utf8EncodeChar).flatten

/-- One step of Rust's strict UTF-8 validation (`String::from_utf8`):
given a leading byte `b`, pull the required continuation bytes from
`rest`, checking the exact ranges of the Rust validation table (which
rejects overlong forms, surrogates and scalars above `0x10FFFF`). -/
def utf8DecodeOne (b : Nat) (rest : List Nat) : Option (Char × List Nat) :=
  if b < 0x80 then some (Char.ofNat b, rest)
  else if 0xC2 ≤ b ∧ b ≤ 0xDF then
    match rest with
    | b1 :: r =>
      if 0x80 ≤ b1 ∧ b1 ≤ 0xBF then
        some (Char.ofNat ((b - 0xC0) * 64 + (b1 - 0x80)), r)
      else none
    | [] => none
  else if 0xE0 ≤ b ∧ b ≤ 0xEF then
    match rest with
    | b1 :: b2 :: r =>
      if (if b = 0xE0 then 0xA0 ≤ b1 ∧ b1 ≤ 0xBF
          else if b = 0xED then 0x80 ≤ b1 ∧ b1 ≤ 0x9F
          else 0x80 ≤ b1 ∧ b1 ≤ 0xBF) ∧ 0x80 ≤ b2 ∧ b2 ≤ 0xBF then
        some (Char.ofNat ((b - 0xE0) * 4096 + (b1 - 0x80) * 64 + (b2 - 0x80)), r)
      else none
    | _ => none
  else if 0xF0 ≤ b ∧ b ≤ 0xF4 then
    match rest with
    | b1 :: b2 :: b3 :: r =>
      if (if b = 0xF0 then 0x90 ≤ b1 ∧ b1 ≤ 0xBF
          else if b = 0xF4 then 0x80 ≤ b1 ∧ b1 ≤ 0x8F
          else 0x80 ≤ b1 ∧ b1 ≤ 0xBF) ∧ 0x80 ≤ b2 ∧ b2 ≤ 0xBF ∧
          0x80 ≤ b3 ∧ b3 ≤ 0xBF then
        some (Char.ofNat
          ((b - 0xF0) * 262144 + (b1 - 0x80) * 4096 + (b2 - 0x80) * 64 + (b3 - 0x80)), r)
      else none
    | _ => none
  else none

/-- Iterate `utf8DecodeOne` over the whole byte sequence; each step
consumes at least the leading byte, so `fuel = length` always suffices. -/
def utf8DecodeGo : Nat → List Nat → Option (List Char)
  | _, [] => some []
  | 0, _ :: _ => none
  | fuel + 1, b :: rest =>
    match utf8DecodeOne b rest with
    | some (c, r) => (utf8DecodeGo fuel r).map (fun cs => c :: cs)
    | none => none

/-- Rust `String::from_utf8` (`data_types.rs:100`): strict validation and
decoding of a byte sequence. -/
def utf8Decode (bytes : List Nat) : Option (List Char) :=
  utf8DecodeGo bytes.length bytes

/-- Unicode scalar value bounds of a `Char` (no surrogates, below
`0x110000`), stated over `Nat`. -/
theorem char_toNat_valid (c : Char) :
    c.toNat < 0xD800 ∨ (0xDFFF < c.toNat ∧ c.toNat < 0x110000) := by
  rcases c.valid with h | ⟨h1, h2⟩
  · left
    exact_mod_cast h
  · right
    exact ⟨by exact_mod_cast h1, by exact_mod_cast h2⟩

/-- Decoding inverts encoding for a single character, leaving any trailing
bytes untouched. -/
theorem utf8DecodeOne_encodeChar (c : Char) (rest : List Nat) :
    ∃ b bs, utf8EncodeChar c = b :: bs ∧
      utf8DecodeOne b (bs ++ rest) = some (c, rest) := by
  have hv := char_toNat_valid c
  by_cases h1 : c.toNat < 0x80
  · refine ⟨c.toNat, [], by simp [utf8EncodeChar, h1], ?_⟩
    simp [utf8DecodeOne, h1]
  · by_cases h2 : c.toNat < 0x800
    · refine ⟨0xC0 + c.toNat / 64, [0x80 + c.toNat % 64],
        by simp [utf8EncodeChar, h1, h2], ?_⟩
      have hc1 : ¬ (0xC0 + c.toNat / 64 < 0x80) := by omega
      have hc2 : 0xC2 ≤ 0xC0 + c.toNat / 64 ∧ 0xC0 + c.toNat / 64 ≤ 0xDF := by omega
      have hb1 : 0x80 ≤ 0x80 + c.toNat % 64 ∧ 0x80 + c.toNat % 64 ≤ 0xBF := by omega
      simp [utf8DecodeOne, hc1, hc2, hb1]
      rw [show c.toNat / 64 * 64 + c.toNat % 64 = c.toNat from by omega,
        Char.ofNat_toNat]
    · by_cases h3 : c.toNat < 0x10000
      · refine ⟨0xE0 + c.toNat / 4096, [0x80 + c.toNat / 64 % 64, 0x80 + c.toNat % 64],
          by simp [utf8EncodeChar, h1, h2, h3], ?_⟩
        have hc1 : ¬ (0xE0 + c.toNat / 4096 < 0x80) := by omega
        have hc2 : ¬ (0xC2 ≤ 0xE0 + c.toNat / 4096 ∧ 0xE0 + c.toNat / 4096 ≤ 0xDF) := by
          omega
        have hc3 : 0xE0 ≤ 0xE0 + c.toNat / 4096 ∧ 0xE0 + c.toNat / 4096 ≤ 0xEF := by
          omega
        have hb2 : 0x80 ≤ 0x80 + c.toNat % 64 ∧ 0x80 + c.toNat % 64 ≤ 0xBF := by omega
        simp [utf8DecodeOne, hc1, hc2, hc3, hb2]
        refine ⟨?_, ?_⟩
        · split
          · omega
          · split <;> omega
        · rw [show c.toNat / 4096 * 4096 + c.toNat / 64 % 64 * 64 + c.toNat % 64 =
              c.toNat from by omega, Char.ofNat_toNat]
      · refine ⟨0xF0 + c.toNat / 262144,
          [0x80 + c.toNat / 4096 % 64, 0x80 + c.toNat / 64 % 64, 0x80 + c.toNat % 64],
          by simp [utf8EncodeChar, h1, h2, h3], ?_⟩
        have hup : c.toNat < 0x110000 := by omega
        have hc1 : ¬ (0xF0 + c.toNat / 262144 < 0x80) := by omega
        have hc2 : ¬ (0xC2 ≤ 0xF0 + c.toNat / 262144 ∧
            0xF0 + c.toNat / 262144 ≤ 0xDF) := by omega
        have hc3 : ¬ (0xE0 ≤ 0xF0 + c.toNat / 262144 ∧
            0xF0 + c.toNat / 262144 ≤ 0xEF) := by omega
        have hc4 : 0xF0 ≤ 0xF0 + c.toNat / 262144 ∧ 0xF0 + c.toNat / 262144 ≤ 0xF4 := by
          omega
        have hb2 : 0x80 ≤ 0x80 + c.toNat / 64 % 64 ∧ 0x80 + c.toNat / 64 % 64 ≤ 0xBF := by
          omega
        have hb3 : 0x80 ≤ 0x80 + c.toNat % 64 ∧ 0x80 + c.toNat % 64 ≤ 0xBF := by omega
        simp [utf8DecodeOne, hc1, hc2, hc3, hc4, hb2, hb3]
        refine ⟨?_, ?_⟩
        · split
          · omega
          · split <;> omega
        · rw [show c.toNat / 262144 * 262144 + c.toNat / 4096 % 64 * 4096 +
              c.toNat / 64 % 64 * 64 + c.toNat % 64 = c.toNat from by omega,
            Char.ofNat_toNat]

/-- Decoding inverts encoding for whole strings, for any sufficient fuel. -/
theorem utf8DecodeGo_encode :
    ∀ (s : List Char) (fuel : Nat), (utf8Encode s).length ≤ fuel →
      utf8DecodeGo fuel (utf8Encode s) = some s := by
  intro s
  induction s with
  | nil => intro fuel _; cases fuel <;> simp [utf8Encode, utf8DecodeGo]
  | cons c cs ih =>
    intro fuel h
    obtain ⟨b, bs, henc, hdec⟩ := utf8DecodeOne_encodeChar c (utf8Encode cs)
    have hflat : utf8Encode (c :: cs) = b :: (bs ++ utf8Encode cs) := by
      simp [utf8Encode] at henc ⊢
      simp [henc]
    rw [hflat] at h ⊢
    cases fuel with
    | zero => simp at h
    | succ fuel =>
      have hlen : (utf8Encode cs).length ≤ fuel := by
        simp [List.length_append] at h
        omega
      simp only [utf8DecodeGo, hdec, ih fuel hlen]
      rfl

/-- `String::from_utf8` inverts UTF-8 encoding. -/
theorem utf8Decode_encode (s : List Char) : utf8Decode (utf8Encode s) = some s :=
  utf8DecodeGo_encode s (utf8Encode s).length le_rfl

/-! ### WireString and fixed-width integers -/

/-- `write_string` (`data_types.rs:76-85`): `i32::try_from(value.len())`
fails exactly when the UTF-8 byte length exceeds `i32::MAX`; otherwise the
byte length is written as a VarInt followed by the raw bytes. -/
def write_string (value : List Char) : Except DecodeErr (List Nat) :=
  if (utf8Encode value).length ≤ 2 ^ 31 - 1 then
    (write_var_int ((utf8Encode value).length : Int)).map
      (fun pre => pre ++ utf8Encode value)
  else .error .stringTooLong

/-- `read_string` (`data_types.rs:87-102`): VarInt size prefix (negative
sizes are rejected by the `usize` conversion), then `read_exact` of
exactly `size` bytes, then UTF-8 validation.  Returns the result together
with the unconsumed remainder of the source.  A failing `read_exact`
consumes everything the source still offers (the default implementation
keeps reading until EOF before reporting the error). -/
def read_string (input : List Nat) : Except DecodeErr (List Char) × List Nat :=
  match read_var_int input with
  | (.error e, rest) => (.error e, rest)
  | (.ok size, rest) =>
    if size < 0 then (.error (.invalidStringSize size), rest)
    else if rest.length < size.toNat then (.error .truncated, [])
    else
      match utf8Decode (rest.take size.toNat) with
      | some s => (.ok s, rest.drop size.toNat)
      | none => (.error .invalidUtf8, rest.drop size.toNat)

/-- `i64::from_be_bytes` (`data_types.rs:110`). -/
def i64FromBeBytes (b0 b1 b2 b3 b4 b5 b6 b7 : Nat) : Int :=
  let n : Nat := b0 * 2 ^ 56 + b1 * 2 ^ 48 + b2 * 2 ^ 40 + b3 * 2 ^ 32 +
    b4 * 2 ^ 24 + b5 * 2 ^ 16 + b6 * 2 ^ 8 + b7
  if n < 2 ^ 63 then (n : Int) else (n : Int) - 2 ^ 64

/-- `read_long` (`data_types.rs:104-111`): `read_exact` of 8 bytes, then
big-endian reassembly; on a short source everything available is consumed
before the error is reported. -/
def read_long (input : List Nat) : Except DecodeErr Int × List Nat :=
  match input with
  | b0 :: b1 :: b2 :: b3 :: b4 :: b5 :: b6 :: b7 :: rest =>
    (.ok (i64FromBeBytes b0 b1 b2 b3 b4 b5 b6 b7), rest)
  | _ => (.error .truncated, [])

/-! ### Packet framer (`main.rs`) -/

/-- `read_status_response` (`main.rs:286-314`).  The
`input.take(packet_length)` adaptor restricts all subsequent reads to the
declared length (or to whatever the source still offers, if that is
less); the final `input.bytes().count()` counts the bytes of the
restricted region left undecoded, and any leftover is an error. -/
def read_status_response (input : List Nat) : Except DecodeErr (List Char) :=
  match read_var_int input with
  | (.error e, _) => .error e
  | (.ok packet_length, rest) =>
    if packet_length < 0 then .error (.invalidPacketLength packet_length)
    else
      match read_var_int (rest.take packet_length.toNat) with
      | (.error e, _) => .error e
      | (.ok packet_id, rest2) =>
        if packet_id ≠ 0 then .error (.unexpectedPacketId packet_id)
        else
          match read_string rest2 with
          | (server_info, rest3) =>
            if rest3.length ≠ 0 then .error (.trailingData rest3.length)
            else server_info

/-- `read_pong_response` (`main.rs:316-344`): like the status packet but
with packet ID 1 and an 8-byte long payload. -/
def read_pong_response (input : List Nat) : Except DecodeErr Int :=
  match read_var_int input with
  | (.error e, _) => .error e
  | (.ok packet_length, rest) =>
    if packet_length < 0 then .error (.invalidPacketLength packet_length)
    else
      match read_var_int (rest.take packet_length.toNat) with
      | (.error e, _) => .error e
      | (.ok packet_id, rest2) =>
        if packet_id ≠ 1 then .error (.unexpectedPacketId packet_id)
        else
          match read_long rest2 with
          | (payload, rest3) =>
            if rest3.length ≠ 0 then .error (.trailingData rest3.length)
            else payload

/-- Outcome of the pong phase of `do_server_list_ping`
(`main.rs:134-153`). -/
inductive PongOutcome where
  /-- "Error: Could not read pong response" (`main.rs:137`). -/
  | readError (e : DecodeErr)
  /-- "Error: the server's pong response is an invalid value"
  (`main.rs:143`), exit code `Protocol`. -/
  | mismatch (payload sent : Int)
  /-- Successful session; the reported latency in milliseconds. -/
  | latency (ms : Nat)
  deriving Repr, DecidableEq

/-- The pong phase of `do_server_list_ping` (`main.rs:134-153`): read the
pong packet, compare its payload with the `system_time_sec` value sent in
the ping, and only on success take the elapsed-time measurement
(`main.rs:147` runs after the mismatch check has returned).  The elapsed
milliseconds are a parameter: they come from the wall clock
(`Instant::elapsed`), outside the byte-level model; a Rust `Duration` is
non-negative by construction, hence `elapsed_ms : Nat`. -/
def pong_phase (input : List Nat) (system_time_sec : Int) (elapsed_ms : Nat) :
    PongOutcome :=
  match read_pong_response input with
  | .error e => .readError e
  | .ok payload =>
    if payload ≠ system_time_sec then .mismatch payload system_time_sec
    else .latency elapsed_ms

example : read_long [0, 0, 0, 0, 0, 0, 1, 2, 99] = (.ok 258, [99]) := by decide
example : read_long [255, 255, 255, 255, 255, 255, 255, 255] = (.ok (-1), []) := by
  decide
example : read_status_response [4, 0, 2, 104, 105] = .ok ['h', 'i'] := by decide
example : read_status_response [5, 0, 2, 104, 105, 7] =
    .error (.trailingData 1) := by decide
example : read_pong_response [9, 1, 0, 0, 0, 0, 0, 0, 0, 5] = .ok 5 := by decide

/-! ### Chat renderer (`chat.rs`)

The renderer is modelled down to the level of *text runs*: the Rust code
pushes each maximal uniformly-styled piece of text through the `colored`
crate into the output string; the model keeps the list of emitted runs,
each paired with the `Style` it is printed under (including empty runs,
which the source also pushes).  This captures exactly which text is
rendered under which style while abstracting the ANSI escape syntax the
`colored` crate chooses. -/

/-- `Color` (`chat.rs:9-14`). -/
structure Color where
  red : Nat
  green : Nat
  blue : Nat
  deriving Repr, DecidableEq

/-- `Style` (`chat.rs:26-34`). -/
structure Style where
  bold : Bool
  italic : Bool
  underline : Bool
  strikethrough : Bool
  obfuscated : Bool
  color : Option Color
  deriving Repr, DecidableEq

/-- `Style::default` (`chat.rs:36-47`). -/
def Style.default : Style :=
  ⟨false, false, false, false, false, none⟩

/-- A `serde_json::Value`.  A number is carried as its canonical
`to_string` rendering, which is all the renderer ever uses of it
(`chat.rs:102`). -/
inductive Json where
  | null
  | bool (b : Bool)
  | num (s : List Char)
  | str (s : List Char)
  | arr (elems : List Json)
  | obj (fields : List (String × Json))

/-- `serde_json::Map::get` (keys in a `serde_json` map are unique). -/
def jsonGet (fields : List (String × Json)) (k : String) : Option Json :=
  match fields with
  | [] => none
  | (k2, v) :: rest => if k2 = k then some v else jsonGet rest k

/-- The `take_while(|c| *c != '§')` step of `apply_styles`
(`chat.rs:115-120` and `chat.rs:154-159`): the collected text before the
marker, and the rest of the iterator (`take_while` consumes the marker
itself). -/
def splitAtMarker (cs : List Char) : List Char × List Char :=
  (cs.takeWhile (fun c => c ≠ '§'), (cs.dropWhile (fun c => c ≠ '§')).drop 1)

/-- The `match control_sequence` table of `apply_styles`
(`chat.rs:160-284`): 16 legacy color codes, five additive style toggles,
the reset code `r`; any other control character leaves the accumulated
style unchanged. -/
def applyCode (style : Style) (c : Char) : Style :=
  match c with
  | '0' => { style with color := some ⟨0x00, 0x00, 0x00⟩ }
  | '1' => { style with color := some ⟨0x00, 0x00, 0xAA⟩ }
  | '2' => { style with color := some ⟨0x00, 0xAA, 0x00⟩ }
  | '3' => { style with color := some ⟨0x00, 0xAA, 0xAA⟩ }
  | '4' => { style with color := some ⟨0xAA, 0x00, 0x00⟩ }
  | '5' => { style with color := some ⟨0xAA, 0x00, 0xAA⟩ }
  | '6' => { style with color := some ⟨0xFF, 0xAA, 0x00⟩ }
  | '7' => { style with color := some ⟨0xAA, 0xAA, 0xAA⟩ }
  | '8' => { style with color := some ⟨0x55, 0x55, 0x55⟩ }
  | '9' => { style with color := some ⟨0x55, 0x55, 0xFF⟩ }
  | 'a' => { style with color := some ⟨0x55, 0xFF, 0x55⟩ }
  | 'b' => { style with color := some ⟨0x55, 0xFF, 0xFF⟩ }
  | 'c' => { style with color := some ⟨0xFF, 0x55, 0x55⟩ }
  | 'd' => { style with color := some ⟨0xFF, 0x55, 0xFF⟩ }
  | 'e' => { style with color := some ⟨0xFF, 0xFF, 0x55⟩ }
  | 'f' => { style with color := some ⟨0xFF, 0xFF, 0xFF⟩ }
  | 'k' => { style with obfuscated := true }
  | 'l' => { style with bold := true }
  | 'm' => { style with strikethrough := true }
  | 'n' => { style with underline := true }
  | 'o' => { style with italic := true }
  | 'r' => Style.default
  | _ => style

/-- The legacy-styling loop of `apply_styles` (`chat.rs:152-311`): `cs`
is the iterator position just after a marker, so its head is the control
character.  The accumulated style persists from one marker to the next
and is cleared only by the reset code.  Every iteration consumes at least
the control character, so `fuel = cs.length` always suffices. -/
def legacyGo : Nat → Style → List Char → List (List Char × Style)
  | 0, _, _ => []
  | _ + 1, _, [] => []
  | fuel + 1, style, ctl :: rest =>
    ((splitAtMarker rest).1, applyCode style ctl) ::
      legacyGo fuel (applyCode style ctl) (splitAtMarker rest).2

/-- `apply_styles` (`chat.rs:108-312`): the structurally-styled prefix run
before the first marker, then the legacy runs, whose style starts from
`Style::default()` (`chat.rs:152`) — not from the structural style. -/
def apply_styles (str : List Char) (style : Style) : List (List Char × Style) :=
  ((splitAtMarker str).1, style) ::
    legacyGo (splitAtMarker str).2.length Style.default (splitAtMarker str).2

/-- `char::to_digit(16)`. -/
def hexDigitVal (c : Char) : Option Nat :=
  if '0' ≤ c ∧ c ≤ '9' then some (c.toNat - '0'.toNat)
  else if 'a' ≤ c ∧ c ≤ 'f' then some (c.toNat - 'a'.toNat + 10)
  else if 'A' ≤ c ∧ c ≤ 'F' then some (c.toNat - 'A'.toNat + 10)
  else none

/-- The digit-accumulation loop of `u32::from_str_radix`:
`checked_mul`/`checked_add` make any intermediate value `≥ 2^32` an
overflow error. -/
def hexAccum : Nat → List Char → Option Nat
  | acc, [] => some acc
  | acc, d :: ds =>
    match hexDigitVal d with
    | some v => if acc * 16 + v < 2 ^ 32 then hexAccum (acc * 16 + v) ds else none
    | none => none

/-- `u32::from_str_radix(s, 16)` for the unsigned type `u32`: an optional
leading `+` sign (a sign alone is an error, and `-` is not accepted —
it fails as an invalid digit), then hexadecimal digits with overflow
checking. -/
def u32FromStrRadix16 (s : List Char) : Option Nat :=
  match s with
  | [] => none
  | ['+'] => none
  | '+' :: ds => hexAccum 0 ds
  | ds => hexAccum 0 ds

/-- `str::len()`: the UTF-8 byte length. -/
def utf8Len (s : List Char) : Nat :=
  (utf8Encode s).length

/-- `parse_web_color` (`chat.rs:400-415`): `color.starts_with('#') &&
color.len() == 7`, then `u32::from_str_radix(&color[1..], 16)` (the `#`
is one byte, so `[1..]` drops exactly it); the `as u8` casts keep the low
byte of each shifted channel. -/
def parse_web_color (color : List Char) : Option Color :=
  if color.head? = some '#' ∧ utf8Len color = 7 then
    match u32FromStrRadix16 (color.drop 1) with
    | some hexnum =>
      some ⟨hexnum / 2 ^ 16 % 256, hexnum / 2 ^ 8 % 256, hexnum % 256⟩
    | none => none
  else none

/-- `parse_color` (`chat.rs:314-398`): the 16 named colors, then the web
color fallback. -/
def parse_color (color : List Char) : Option Color :=
  if color = "black".toList then some ⟨0x00, 0x00, 0x00⟩
  else if color = "dark_blue".toList then some ⟨0x00, 0x00, 0xAA⟩
  else if color = "dark_green".toList then some ⟨0x00, 0xAA, 0x00⟩
  else if color = "dark_aqua".toList then some ⟨0x00, 0xAA, 0xAA⟩
  else if color = "dark_red".toList then some ⟨0xAA, 0x00, 0x00⟩
  else if color = "dark_purple".toList then some ⟨0xAA, 0x00, 0xAA⟩
  else if color = "gold".toList then some ⟨0xFF, 0xAA, 0x00⟩
  else if color = "gray".toList then some ⟨0xAA, 0xAA, 0xAA⟩
  else if color = "dark_gray".toList then some ⟨0x55, 0x55, 0x55⟩
  else if color = "blue".toList then some ⟨0x55, 0x55, 0xFF⟩
  else if color = "green".toList then some ⟨0x55, 0xFF, 0x55⟩
  else if color = "aqua".toList then some ⟨0x55, 0xFF, 0xFF⟩
  else if color = "red".toList then some ⟨0xFF, 0x55, 0x55⟩
  else if color = "light_purple".toList then some ⟨0xFF, 0x55, 0xFF⟩
  else if color = "yellow".toList then some ⟨0xFF, 0xFF, 0x55⟩
  else if color = "white".toList then some ⟨0xFF, 0xFF, 0xFF⟩
  else parse_web_color color

/-- The style-override block of `parse_component` (`chat.rs:60-83`): each
of the five boolean flags and the color is overridden exactly when the
object carries the key with the matching JSON type; a missing key or a
type mismatch keeps the inherited value. -/
def deriveStyle (fields : List (String × Json)) (style : Style) : Style :=
  let s1 := match jsonGet fields "bold" with
    | some (.bool b) => { style with bold := b }
    | _ => style
  let s2 := match jsonGet fields "italic" with
    | some (.bool b) => { s1 with italic := b }
    | _ => s1
  let s3 := match jsonGet fields "underlined" with
    | some (.bool b) => { s2 with underline := b }
    | _ => s2
  let s4 := match jsonGet fields "strikethrough" with
    | some (.bool b) => { s3 with strikethrough := b }
    | _ => s3
  let s5 := match jsonGet fields "obfuscated" with
    | some (.bool b) => { s4 with obfuscated := b }
    | _ => s4
  match jsonGet fields "color" with
  | some (.str c) => { s5 with color := parse_color c }
  | _ => s5

/-- The work-stack loop of `parse_component` (`chat.rs:53-104`), with
explicit fuel.  `components.pop()` takes the most recently pushed pair,
so the top of the Rust `Vec` is the head of the list here; an array
pushes its elements in reverse order so that they are popped
left-to-right (`chat.rs:97-100`), and an object emits its own text runs
before pushing its `extra` array (`chat.rs:85-95`). -/
def parseLoop : Nat → List (Json × Style) → Option (List (List Char × Style))
  | 0, _ => none
  | _ + 1, [] => some []
  | fuel + 1, (comp, style) :: stack =>
    match comp with
    | .null => parseLoop fuel stack
    | .str t => (parseLoop fuel stack).map (fun rs => apply_styles t style ++ rs)
    | .obj chat_object =>
      (parseLoop fuel
          (match jsonGet chat_object "extra" with
            | some (.arr elems) => (Json.arr elems, deriveStyle chat_object style) :: stack
            | _ => stack)).map
        (fun rs =>
          (match jsonGet chat_object "text" with
            | some (.str s) => apply_styles s (deriveStyle chat_object style)
            | _ => []) ++ rs)
    | .arr siblings => parseLoop fuel (siblings.map (fun s => (s, style)) ++ stack)
    | .bool b =>
      (parseLoop fuel stack).map
        (fun rs =>
          apply_styles (if b then "true".toList else "false".toList) style ++ rs)
    | .num t => (parseLoop fuel stack).map (fun rs => apply_styles t style ++ rs)

mutual

/-- Weight of a JSON value: its number of nodes, counting an object as
one node plus its field values.  Used to bound the number of loop
iterations. -/
def Json.weight : Json → Nat
  | .arr elems => 1 + Json.listWeight elems
  | .obj fields => 1 + Json.fieldsWeight fields
  | _ => 1

/-- Total weight of a list of JSON values. -/
def Json.listWeight : List Json → Nat
  | [] => 0
  | v :: vs => Json.weight v + Json.listWeight vs

/-- Total weight of the values in an object's field list. -/
def Json.fieldsWeight : List (String × Json) → Nat
  | [] => 0
  | (_, v) :: fs => Json.weight v + Json.fieldsWeight fs

end

/-- Total weight of the JSON values on the work stack. -/
def stackWeight : List (Json × Style) → Nat
  | [] => 0
  | (v, _) :: rest => Json.weight v + stackWeight rest

/-- `parse_component` (`chat.rs:49-106`): run the work-stack loop to
completion (the fuel is sufficient, as proved below). -/
def parse_component (text : Json) : List (List Char × Style) :=
  (parseLoop (Json.weight text + 1) [(text, Style.default)]).getD []

/-- `chat_to_str` (`chat.rs:4-7`). -/
def chat_to_str (text : Json) : List (List Char × Style) :=
  parse_component text

/-- The plain text carried by a run list. -/
def runsText (runs : List (List Char × Style)) : List Char :=
  (runs.map Prod.fst).flatten

/-- Every JSON value has positive weight. -/
theorem Json.weight_pos (v : Json) : 0 < v.weight := by
  cases v <;> simp [Json.weight]

/-- A field value found by `get` weighs no more than the whole field
list. -/
theorem jsonGet_weight_le :
    ∀ (fields : List (String × Json)) (k : String) (v : Json),
      jsonGet fields k = some v → Json.weight v ≤ Json.fieldsWeight fields := by
  intro fields
  induction fields with
  | nil => intro k v h; simp [jsonGet] at h
  | cons f rest ih =>
    intro k v h
    obtain ⟨k2, w⟩ := f
    simp only [jsonGet] at h
    by_cases hk : k2 = k
    · rw [if_pos hk] at h
      injection h with h
      subst h
      simp [Json.fieldsWeight]
    · rw [if_neg hk] at h
      have := ih k v h
      simp only [Json.fieldsWeight]
      omega

/-- Pushing the elements of an array contributes exactly their total
weight to the stack. -/
theorem stackWeight_push_elems (style : Style) :
    ∀ (elems : List Json) (rest : List (Json × Style)),
      stackWeight (elems.map (fun s => (s, style)) ++ rest) =
        Json.listWeight elems + stackWeight rest := by
  intro elems
  induction elems with
  | nil => intro rest; simp [Json.listWeight]
  | cons e es ih =>
    intro rest
    have h1 : List.map (fun s => (s, style)) (e :: es) ++ rest =
        (e, style) :: (List.map (fun s => (s, style)) es ++ rest) := rfl
    rw [h1]
    simp only [stackWeight, Json.listWeight]
    rw [ih]
    omega

/-- Each loop iteration either removes a value from the stack or replaces
it by values of strictly smaller total weight, so any fuel exceeding the
stack weight makes the loop halt with a result. -/
theorem parseLoop_total :
    ∀ (fuel : Nat) (stack : List (Json × Style)), stackWeight stack < fuel →
      (parseLoop fuel stack).isSome := by
  intro fuel
  induction fuel with
  | zero => intro stack h; omega
  | succ fuel ih =>
    intro stack h
    match stack with
    | [] => simp [parseLoop]
    | (comp, style) :: rest =>
      have hrest : stackWeight rest < fuel := by
        have := Json.weight_pos comp
        simp only [stackWeight] at h
        omega
      match comp with
      | .null =>
        simp only [parseLoop]
        exact ih rest hrest
      | .str t =>
        obtain ⟨rs, hrs⟩ := Option.isSome_iff_exists.mp (ih rest hrest)
        simp [parseLoop, hrs]
      | .num t =>
        obtain ⟨rs, hrs⟩ := Option.isSome_iff_exists.mp (ih rest hrest)
        simp [parseLoop, hrs]
      | .bool b =>
        obtain ⟨rs, hrs⟩ := Option.isSome_iff_exists.mp (ih rest hrest)
        simp [parseLoop, hrs]
      | .arr siblings =>
        have h2 := ih (siblings.map (fun s => (s, style)) ++ rest) (by
          rw [stackWeight_push_elems]
          simp only [stackWeight, Json.weight] at h
          omega)
        obtain ⟨rs, hrs⟩ := Option.isSome_iff_exists.mp h2
        simp [parseLoop, hrs]
      | .obj chat_object =>
        simp only [stackWeight, Json.weight] at h
        match hx : jsonGet chat_object "extra" with
        | none =>
          obtain ⟨rs, hrs⟩ := Option.isSome_iff_exists.mp (ih rest hrest)
          simp [parseLoop, hx, hrs]
        | some .null =>
          obtain ⟨rs, hrs⟩ := Option.isSome_iff_exists.mp (ih rest hrest)
          simp [parseLoop, hx, hrs]
        | some (.bool _) =>
          obtain ⟨rs, hrs⟩ := Option.isSome_iff_exists.mp (ih rest hrest)
          simp [parseLoop, hx, hrs]
        | some (.num _) =>
          obtain ⟨rs, hrs⟩ := Option.isSome_iff_exists.mp (ih rest hrest)
          simp [parseLoop, hx, hrs]
        | some (.str _) =>
          obtain ⟨rs, hrs⟩ := Option.isSome_iff_exists.mp (ih rest hrest)
          simp [parseLoop, hx, hrs]
        | some (.obj _) =>
          obtain ⟨rs, hrs⟩ := Option.isSome_iff_exists.mp (ih rest hrest)
          simp [parseLoop, hx, hrs]
        | some (.arr elems) =>
          have hwv := jsonGet_weight_le chat_object "extra" _ hx
          have h2 := ih ((Json.arr elems, deriveStyle chat_object style) :: rest) (by
            simp only [stackWeight]
            omega)
          obtain ⟨rs, hrs⟩ := Option.isSome_iff_exists.mp h2
          simp [parseLoop, hx, hrs]

/-- The fuel chosen by `parse_component` is always sufficient. -/
theorem parse_component_eq (text : Json) :
    ∃ rs, parseLoop (Json.weight text + 1) [(text, Style.default)] = some rs ∧
      parse_component text = rs := by
  have h := parseLoop_total (Json.weight text + 1) [(text, Style.default)]
    (by simp [stackWeight])
  obtain ⟨rs, hrs⟩ := Option.isSome_iff_exists.mp h
  exact ⟨rs, hrs, by simp [parse_component, hrs]⟩

/-- `write_string` followed by `read_string` round-trips, consuming
exactly the written bytes. -/
theorem write_read_string (s : List Char) (h : (utf8Encode s).length ≤ 2 ^ 31 - 1) :
    ∃ pre, write_var_int ((utf8Encode s).length : Int) = .ok pre ∧
      write_string s = .ok (pre ++ utf8Encode s) ∧
      ∀ tail, read_string (pre ++ utf8Encode s ++ tail) = (.ok s, tail) := by
  obtain ⟨pre, hw, _, hr⟩ :=
    write_read_var_int ((utf8Encode s).length : Int) (by omega) (by omega) (utf8Encode s)
  refine ⟨pre, hw, ?_, ?_⟩
  · unfold write_string
    rw [if_pos h, hw]
    rfl
  · intro tail
    obtain ⟨pre2, hw2, _, hr2⟩ :=
      write_read_var_int ((utf8Encode s).length : Int) (by omega) (by omega)
        (utf8Encode s ++ tail)
    rw [hw] at hw2
    injection hw2 with hpre
    subst hpre
    rw [List.append_assoc]
    simp only [read_string, hr2]
    rw [if_neg (by omega)]
    have hlen : ((utf8Encode s).length : Int).toNat = (utf8Encode s).length := by omega
    rw [hlen]
    rw [if_neg (by rw [List.length_append]; omega)]
    rw [List.take_left, List.drop_left, utf8Decode_encode]

/-- Reading a status packet whose full declared body is present reduces to
reading the packet ID and the string from exactly the declared bytes,
followed by the leftover check. -/
theorem read_status_decomp (L : Int) (pre body tail : List Nat)
    (hw : write_var_int L = .ok pre) (hlen : body.length = L.toNat)
    (h0 : 0 ≤ L) (h31 : L < 2 ^ 31) :
    read_status_response (pre ++ (body ++ tail)) =
      (match read_var_int body with
       | (.error e, _) => .error e
       | (.ok pid, rest2) =>
         if pid ≠ 0 then .error (.unexpectedPacketId pid)
         else
           match read_string rest2 with
           | (si, rest3) =>
             if rest3.length ≠ 0 then .error (.trailingData rest3.length)
             else si) := by
  obtain ⟨bs, hw2, _, hr⟩ := write_read_var_int L (by omega) h31 (body ++ tail)
  rw [hw] at hw2
  injection hw2 with hbs
  subst hbs
  have htake : (body ++ tail).take L.toNat = body := by
    rw [← hlen]
    exact List.take_left _ _
  simp only [read_status_response, hr]
  rw [if_neg (by omega), htake]

/-- Pong analogue of `read_status_decomp`. -/
theorem read_pong_decomp (L : Int) (pre body tail : List Nat)
    (hw : write_var_int L = .ok pre) (hlen : body.length = L.toNat)
    (h0 : 0 ≤ L) (h31 : L < 2 ^ 31) :
    read_pong_response (pre ++ (body ++ tail)) =
      (match read_var_int body with
       | (.error e, _) => .error e
       | (.ok pid, rest2) =>
         if pid ≠ 1 then .error (.unexpectedPacketId pid)
         else
           match read_long rest2 with
           | (payload, rest3) =>
             if rest3.length ≠ 0 then .error (.trailingData rest3.length)
             else payload) := by
  obtain ⟨bs, hw2, _, hr⟩ := write_read_var_int L (by omega) h31 (body ++ tail)
  rw [hw] at hw2
  injection hw2 with hbs
  subst hbs
  have htake : (body ++ tail).take L.toNat = body := by
    rw [← hlen]
    exact List.take_left _ _
  simp only [read_pong_response, hr]
  rw [if_neg (by omega), htake]

/-- The style-override block, written as one record: each field is taken
from the object exactly when its key carries the matching JSON type, and
keeps the inherited value otherwise. -/
theorem deriveStyle_eq (fields : List (String × Json)) (st : Style) :
    deriveStyle fields st =
      { bold := match jsonGet fields "bold" with | some (.bool b) => b | _ => st.bold,
        italic := match jsonGet fields "italic" with | some (.bool b) => b | _ => st.italic,
        underline := match jsonGet fields "underlined" with
          | some (.bool b) => b | _ => st.underline,
        strikethrough := match jsonGet fields "strikethrough" with
          | some (.bool b) => b | _ => st.strikethrough,
        obfuscated := match jsonGet fields "obfuscated" with
          | some (.bool b) => b | _ => st.obfuscated,
        color := match jsonGet fields "color" with
          | some (.str c) => parse_color c | _ => st.color } := by
  simp only [deriveStyle]
  (repeat' split) <;> rfl

/-- The remainder returned by `read_var_int` is that of its loop. -/
theorem read_var_int_snd (input : List Nat) :
    (read_var_int input).2 = (readVarIntGo 0 0 input).2 := by
  rcases h : readVarIntGo 0 0 input with ⟨r, rest⟩
  cases r <;> simp [read_var_int, h]

/-- `read_var_int` reports an error exactly when its loop does. -/
theorem read_var_int_error_iff (input : List Nat) (e : DecodeErr) :
    (read_var_int input).1 = .error e ↔ (readVarIntGo 0 0 input).1 = .error e := by
  rcases h : readVarIntGo 0 0 input with ⟨r, rest⟩
  cases r <;> simp [read_var_int, h]

/-- `Char` order gives `Nat` order on scalar values. -/
theorem char_le_toNat {a b : Char} (h : a ≤ b) : a.toNat ≤ b.toNat := by
  exact_mod_cast h

/-- A hexadecimal digit's value is at most 15. -/
theorem hexDigitVal_le {c : Char} {v : Nat} (h : hexDigitVal c = some v) : v ≤ 15 := by
  have e9 : ('9' : Char).toNat = 57 := rfl
  have ef : ('f' : Char).toNat = 102 := rfl
  have ea : ('a' : Char).toNat = 97 := rfl
  have eF : ('F' : Char).toNat = 70 := rfl
  have eA : ('A' : Char).toNat = 65 := rfl
  have e0 : ('0' : Char).toNat = 48 := rfl
  unfold hexDigitVal at h
  split at h
  · next hc =>
    injection h with h
    have h2 := char_le_toNat hc.2
    omega
  · split at h
    · next hc =>
      injection h with h
      have h1 := char_le_toNat hc.1
      have h2 := char_le_toNat hc.2
      omega
    · split at h
      · next hc =>
        injection h with h
        have h1 := char_le_toNat hc.1
        have h2 := char_le_toNat hc.2
        omega
      · exact absurd h (by simp)

/-- A hexadecimal digit is an ASCII character. -/
theorem hexDigitVal_ascii {c : Char} (h : (hexDigitVal c).isSome) : c.toNat < 128 := by
  have e9 : ('9' : Char).toNat = 57 := rfl
  have ef : ('f' : Char).toNat = 102 := rfl
  have eF : ('F' : Char).toNat = 70 := rfl
  unfold hexDigitVal at h
  split at h
  · next hc =>
    have h2 := char_le_toNat hc.2
    omega
  · split at h
    · next hc =>
      have h2 := char_le_toNat hc.2
      omega
    · split at h
      · next hc =>
        have h2 := char_le_toNat hc.2
        omega
      · simp at h

/-- The digit-accumulation loop never overflows while enough headroom
remains. -/
theorem hexAccum_isSome :
    ∀ (ds : List Char) (acc : Nat), (∀ c ∈ ds, (hexDigitVal c).isSome) →
      acc * 16 ^ ds.length + 16 ^ ds.length ≤ 2 ^ 32 → (hexAccum acc ds).isSome := by
  intro ds
  induction ds with
  | nil => intro acc _ _; simp [hexAccum]
  | cons d ds ih =>
    intro acc hdig hrange
    have hd : (hexDigitVal d).isSome := hdig d (List.mem_cons_self d ds)
    obtain ⟨v, hv⟩ := Option.isSome_iff_exists.mp hd
    have hv15 : v ≤ 15 := hexDigitVal_le hv
    have hpow : (16 : Nat) ^ (d :: ds).length = 16 ^ ds.length * 16 := by
      simp [List.length_cons, pow_succ]
    rw [hpow] at hrange
    have hp1 : (1 : Nat) ≤ 16 ^ ds.length := Nat.one_le_pow _ _ (by norm_num)
    have hcheck : acc * 16 + v < 2 ^ 32 := by nlinarith
    have hnext : (acc * 16 + v) * 16 ^ ds.length + 16 ^ ds.length ≤ 2 ^ 32 := by nlinarith
    simp only [hexAccum, hv, if_pos hcheck]
    exact ih (acc * 16 + v) (fun c hc => hdig c (List.mem_cons_of_mem _ hc)) hnext

/-- The UTF-8 byte length of an ASCII string equals its character
count. -/
theorem utf8Len_ascii :
    ∀ cs : List Char, (∀ c ∈ cs, c.toNat < 128) → utf8Len cs = cs.length := by
  intro cs
  induction cs with
  | nil => intro _; rfl
  | cons c cs ih =>
    intro h
    have hc : c.toNat < 128 := h c (List.mem_cons_self c cs)
    have henc : utf8EncodeChar c = [c.toNat] := by
      unfold utf8EncodeChar
      rw [if_pos hc]
    have hflat : utf8Encode (c :: cs) = utf8EncodeChar c ++ utf8Encode cs := by
      simp [utf8Encode]
    simp only [utf8Len, hflat, henc, List.length_append, List.length_cons,
      List.length_nil]
    have := ih (fun x hx => h x (List.mem_cons_of_mem _ hx))
    simp only [utf8Len] at this
    omega

/-- If the first character is a hexadecimal digit, `from_str_radix` has no
sign to strip. -/
theorem u32FromStrRadix16_cons_hex {d : Char} (ds : List Char)
    (hd : (hexDigitVal d).isSome) :
    u32FromStrRadix16 (d :: ds) = hexAccum 0 (d :: ds) := by
  have hplus : d ≠ '+' := by
    intro hdd
    subst hdd
    simp [hexDigitVal] at hd
  unfold u32FromStrRadix16
  split
  · next heq => simp at heq
  · next heq =>
    injection heq with h1 _
    exact absurd h1 hplus
  · next x heq =>
    injection heq with h1 _
    exact absurd h1 hplus
  · rfl

/-- A leading `+` followed by at least one character is stripped by
`from_str_radix`. -/
theorem u32FromStrRadix16_plus (ds : List Char) (hne : ds ≠ []) :
    u32FromStrRadix16 ('+' :: ds) = hexAccum 0 ds := by
  unfold u32FromStrRadix16
  split
  · next heq => simp at heq
  · next heq =>
    injection heq with _ h2
    exact absurd h2 hne
  · next x heq =>
    injection heq with _ h2
    rw [h2]
  · next h1 h2 h3 =>
    exact absurd rfl (h3 ds)

/-- `parse_web_color` accepts `#` followed by six hexadecimal digits and
splits the value into the three channels. -/
theorem parse_web_color_hex (ds : List Char) (h6 : ds.length = 6)
    (hdig : ∀ c ∈ ds, (hexDigitVal c).isSome) :
    ∃ n, u32FromStrRadix16 ds = some n ∧
      parse_web_color ('#' :: ds) =
        some ⟨n / 2 ^ 16 % 256, n / 2 ^ 8 % 256, n % 256⟩ := by
  have hsome := hexAccum_isSome ds 0 hdig (by rw [h6]; norm_num)
  cases ds with
  | nil => simp at h6
  | cons d ds2 =>
    have hu : u32FromStrRadix16 (d :: ds2) = hexAccum 0 (d :: ds2) :=
      u32FromStrRadix16_cons_hex ds2 (hdig d (List.mem_cons_self _ _))
    obtain ⟨n, hn⟩ := Option.isSome_iff_exists.mp hsome
    refine ⟨n, by rw [hu]; exact hn, ?_⟩
    have hlen : utf8Len ('#' :: d :: ds2) = 7 := by
      rw [utf8Len_ascii]
      · simp only [List.length_cons] at h6 ⊢
        omega
      · intro c hc
        rcases List.mem_cons.mp hc with h | h
        · subst h; decide
        · exact hexDigitVal_ascii (hdig c h)
    unfold parse_web_color
    rw [if_pos ⟨rfl, hlen⟩]
    rw [show ('#' :: d :: ds2).drop 1 = d :: ds2 from rfl, hu, hn]

/-- `parse_web_color` also accepts `#` followed by `+` and five
hexadecimal digits, because `u32::from_str_radix` strips the sign. -/
theorem parse_web_color_plus_hex (ds : List Char) (h5 : ds.length = 5)
    (hdig : ∀ c ∈ ds, (hexDigitVal c).isSome) :
    ∃ n, u32FromStrRadix16 ('+' :: ds) = some n ∧
      parse_web_color ('#' :: '+' :: ds) =
        some ⟨n / 2 ^ 16 % 256, n / 2 ^ 8 % 256, n % 256⟩ := by
  have hsome := hexAccum_isSome ds 0 hdig (by rw [h5]; norm_num)
  obtain ⟨n, hn⟩ := Option.isSome_iff_exists.mp hsome
  have hne : ds ≠ [] := by
    intro h
    rw [h] at h5
    simp at h5
  have hu : u32FromStrRadix16 ('+' :: ds) = hexAccum 0 ds :=
    u32FromStrRadix16_plus ds hne
  refine ⟨n, by rw [hu]; exact hn, ?_⟩
  have hlen : utf8Len ('#' :: '+' :: ds) = 7 := by
    rw [utf8Len_ascii]
    · simp only [List.length_cons] at h5 ⊢
      omega
    · intro c hc
      rcases List.mem_cons.mp hc with h | h
      · subst h; decide
      · rcases List.mem_cons.mp h with h | h
        · subst h; decide
        · exact hexDigitVal_ascii (hdig c h)
  unfold parse_web_color
  rw [if_pos ⟨rfl, hlen⟩]
  rw [show ('#' :: '+' :: ds).drop 1 = '+' :: ds from rfl, hu, hn]

/-- `read_long` on a source of fewer than 8 bytes fails with the
truncation error, consuming everything (`read_exact` reads to EOF before
reporting the failure). -/
theorem read_long_short (l : List Nat) (h : l.length < 8) :
    read_long l = (.error .truncated, []) := by
  match l with
  | [] => rfl
  | [a] => rfl
  | [a, b] => rfl
  | [a, b, c] => rfl
  | [a, b, c, d] => rfl
  | [a, b, c, d, e] => rfl
  | [a, b, c, d, e, f] => rfl
  | [a, b, c, d, e, f, g] => rfl
  | a :: b :: c :: d :: e :: f :: g :: h2 :: rest =>
    simp only [List.length_cons] at h
    omega

/-- `read_string` fails with the truncation error, consuming the whole
source, when its size prefix promises more bytes than the source
holds. -/
theorem read_string_size_truncated (rest2 : List Nat) (size : Int)
    (rest3 : List Nat) (h : read_var_int rest2 = (.ok size, rest3))
    (hpos : 0 ≤ size) (hlt : rest3.length < size.toNat) :
    read_string rest2 = (.error .truncated, []) := by
  simp only [read_string, h]
  rw [if_neg (by omega), if_pos hlt]

/-! ### Claims -/

/-- C1: VarInt round-trip — for every `i32` value `v`, `write_var_int`
succeeds (its internal "more than 5 bytes" error branch is never taken),
emits at most 5 bytes, and `read_var_int` applied to exactly those bytes
returns `v` with nothing left over; the encoding of `0` is the single
byte `0x00`, of `-1` is `FF FF FF FF 0F`, and of `25565` is
`DD C7 01`. -/
theorem c1_varint_roundtrip :
    (∀ v : Int, -(2 ^ 31) ≤ v → v < 2 ^ 31 →
      ∃ bs, write_var_int v = .ok bs ∧ bs.length ≤ 5 ∧
        read_var_int bs = (.ok v, [])) ∧
    write_var_int 0 = .ok [0x00] ∧
    write_var_int (-1) = .ok [0xFF, 0xFF, 0xFF, 0xFF, 0x0F] ∧
    write_var_int 25565 = .ok [0xDD, 0xC7, 0x01] := by
  refine ⟨?_, by decide, by decide, by decide⟩
  intro v h1 h2
  obtain ⟨bs, hw, hl, hr⟩ := write_read_var_int v h1 h2 []
  exact ⟨bs, hw, hl, by simpa using hr⟩

/-- C1 witness: the round-trip instantiated at `v = 25565`. -/
theorem c1_varint_roundtrip_witness :
    (-(2 ^ 31) : Int) ≤ 25565 ∧ (25565 : Int) < 2 ^ 31 ∧
    ∃ bs, write_var_int 25565 = .ok bs ∧ bs.length ≤ 5 ∧
      read_var_int bs = (.ok 25565, []) :=
  ⟨by norm_num, by norm_num, c1_varint_roundtrip.1 25565 (by norm_num) (by norm_num)⟩

/-- C2 counterexample: on the byte source `[0xFF]`, which ends before any
byte with a clear continuation bit, `read_var_int` reports the generic
"Invalid VarInt" (Malformed) error — not the distinct "not enough bytes"
(Truncated) error the claim requires for a source that ends early. -/
theorem c2_truncated_source_counterexample :
    read_var_int [0xFF] = (.error .invalidVarInt, []) ∧
    (read_var_int [0xFF]).1 ≠ .error (.varIntNotEnoughBytes 1) := by
  exact ⟨by decide, by decide⟩

/-- C2 (amended): `read_var_int` never consumes more than 5 bytes from any
source; it fails exactly when every byte the source offers among the
first five has its continuation bit set — both when the source ends early
and when a 6th byte would be needed — and in all those cases the error is
the same generic "Invalid VarInt" (Malformed) one.  The distinct "not
enough bytes" (Truncated) error corresponds to an underlying I/O read
error and never arises from a byte sequence. -/
theorem c2_read_var_int_discipline :
    (∀ input : List Nat, ∃ k, k ≤ 5 ∧ (read_var_int input).2 = input.drop k) ∧
    (∀ input : List Nat,
      ((read_var_int input).1 = .error .invalidVarInt ↔
        ∀ b ∈ input.take 5, ¬ b / 128 = 0)) ∧
    (∀ (input : List Nat) (n : Nat),
      (read_var_int input).1 ≠ .error (.varIntNotEnoughBytes n)) := by
  refine ⟨?_, ?_, ?_⟩
  · intro input
    obtain ⟨k, hk, hdrop⟩ := readVarIntGo_consumption input 0 0
    exact ⟨k, by omega, by rw [read_var_int_snd]; exact hdrop⟩
  · intro input
    rw [read_var_int_error_iff]
    simpa using readVarIntGo_error_iff input 0 0
  · intro input n h
    exact readVarIntGo_no_truncated_error input 0 0 n
      ((read_var_int_error_iff input _).mp h)

/-- C2 witness: the amended statement instantiated at concrete sources —
a terminated VarInt leaves exactly the trailing bytes, and five
continuation bytes give the "Invalid VarInt" error. -/
theorem c2_read_var_int_discipline_witness :
    (read_var_int [0x81, 0x01, 0x99]).2 = [0x99] ∧
    (read_var_int [0xFF, 0xFF, 0xFF, 0xFF, 0xFF]).1 = .error .invalidVarInt := by
  refine ⟨by decide, ?_⟩
  exact (c2_read_var_int_discipline.2.1 [0xFF, 0xFF, 0xFF, 0xFF, 0xFF]).mpr (by decide)

/-- C3: WireString round-trip — for every string whose UTF-8 byte length
fits a non-negative `i32`, `write_string` emits the VarInt-encoded byte
length followed by the UTF-8 bytes, `read_string` on exactly those bytes
returns the string with nothing left over, and the empty string encodes
as the single byte `0x00`. -/
theorem c3_wire_string_roundtrip :
    (∀ s : List Char, (utf8Encode s).length ≤ 2 ^ 31 - 1 →
      ∃ pre, write_var_int ((utf8Encode s).length : Int) = .ok pre ∧
        write_string s = .ok (pre ++ utf8Encode s) ∧
        read_string (pre ++ utf8Encode s) = (.ok s, [])) ∧
    write_string [] = .ok [0x00] := by
  refine ⟨?_, by decide⟩
  intro s h
  obtain ⟨pre, hpre, hws, hrs⟩ := write_read_string s h
  exact ⟨pre, hpre, hws, by simpa using hrs []⟩

/-- C3 witness: the round-trip instantiated at the two-character string
`"hi"`. -/
theorem c3_wire_string_roundtrip_witness :
    (utf8Encode "hi".toList).length ≤ 2 ^ 31 - 1 ∧
    ∃ pre, write_var_int ((utf8Encode "hi".toList).length : Int) = .ok pre ∧
      write_string "hi".toList = .ok (pre ++ utf8Encode "hi".toList) ∧
      read_string (pre ++ utf8Encode "hi".toList) = (.ok "hi".toList, []) :=
  ⟨by decide, c3_wire_string_roundtrip.1 "hi".toList (by decide)⟩

/-- C4 counterexample: the packet `[0x0A, 0x00, 0x01, 0x41]` declares a
body of 10 bytes but the source ends after 3 body bytes; the expected
fields decode, the leftover count at the already-exhausted source is 0,
and `read_status_response` silently succeeds — the declared length (10)
does not match the bytes consumed by the fields (3), yet no
`TrailingData` or `Truncated` error is raised. -/
theorem c4_framer_counterexample :
    read_status_response [10, 0, 1, 65] = .ok ['A'] := by decide

/-- C4 (amended): when the source still offers at least the declared
number of body bytes, packet decoding never silently succeeds on a length
mismatch: success implies the expected fields consumed the declared bytes
exactly; fields that leave bytes undecoded inside the declared length
force a `TrailingData` error; and fields that run out of bytes fail with
a `Truncated` or Malformed error — a packet-ID VarInt cut by the region
boundary propagates its "Invalid VarInt" error, a string whose size
prefix promises more than the region holds fails with the truncation
error, and a pong payload of fewer than 8 bytes fails with the truncation
error — for the status packet and the pong packet alike.  (If the source
ends before the declared length is reached but after the fields decoded,
the leftover check is vacuous and decoding succeeds; see the
counterexample.) -/
theorem c4_framer_integrity :
    ∀ (L : Int) (pre body tail : List Nat),
      write_var_int L = .ok pre → body.length = L.toNat → 0 ≤ L → L < 2 ^ 31 →
      (∀ s, read_status_response (pre ++ (body ++ tail)) = .ok s →
          ∃ rest2, read_var_int body = (.ok 0, rest2) ∧
            read_string rest2 = (.ok s, [])) ∧
      (∀ rest2 si rest3, read_var_int body = (.ok 0, rest2) →
          read_string rest2 = (si, rest3) → rest3.length ≠ 0 →
          read_status_response (pre ++ (body ++ tail)) =
            .error (.trailingData rest3.length)) ∧
      (∀ p, read_pong_response (pre ++ (body ++ tail)) = .ok p →
          ∃ rest2, read_var_int body = (.ok 1, rest2) ∧
            read_long rest2 = (.ok p, [])) ∧
      (∀ rest2 pl rest3, read_var_int body = (.ok 1, rest2) →
          read_long rest2 = (pl, rest3) → rest3.length ≠ 0 →
          read_pong_response (pre ++ (body ++ tail)) =
            .error (.trailingData rest3.length)) ∧
      (∀ e r, read_var_int body = (.error e, r) →
          read_status_response (pre ++ (body ++ tail)) = .error e) ∧
      (∀ rest2 e, read_var_int body = (.ok 0, rest2) →
          read_string rest2 = (.error e, []) →
          read_status_response (pre ++ (body ++ tail)) = .error e) ∧
      (∀ rest2 size rest3, read_var_int body = (.ok 0, rest2) →
          read_var_int rest2 = (.ok size, rest3) → 0 ≤ size →
          rest3.length < size.toNat →
          read_status_response (pre ++ (body ++ tail)) = .error .truncated) ∧
      (∀ e r, read_var_int body = (.error e, r) →
          read_pong_response (pre ++ (body ++ tail)) = .error e) ∧
      (∀ rest2, read_var_int body = (.ok 1, rest2) → rest2.length < 8 →
          read_pong_response (pre ++ (body ++ tail)) = .error .truncated) := by
  intro L pre body tail hw hlen h0 h31
  have hs := read_status_decomp L pre body tail hw hlen h0 h31
  have hp := read_pong_decomp L pre body tail hw hlen h0 h31
  refine ⟨?_, ?_, ?_, ?_, ?_, ?_, ?_, ?_, ?_⟩
  · intro s hok
    rw [hs] at hok
    rcases h2 : read_var_int body with ⟨r, rest2⟩
    rw [h2] at hok
    cases r with
    | error e => simp at hok
    | ok pid =>
      simp at hok
      rcases h3 : read_string rest2 with ⟨si, rest3⟩
      rw [h3] at hok
      by_cases hpid : pid = 0
      · subst hpid
        simp at hok
        by_cases hr3 : rest3.length = 0
        · have hnil : rest3 = [] := List.length_eq_zero.mp hr3
          subst hnil
          simp at hok
          exact ⟨rest2, rfl, by rw [h3, hok]⟩
        · have hne2 : rest3 ≠ [] := fun hh => hr3 (by simp [hh])
          simp [hne2] at hok
      · simp [hpid] at hok
  · intro rest2 si rest3 h2 h3 hne
    rw [hs]
    simp [h2, h3, hne]
  · intro p hok
    rw [hp] at hok
    rcases h2 : read_var_int body with ⟨r, rest2⟩
    rw [h2] at hok
    cases r with
    | error e => simp at hok
    | ok pid =>
      simp at hok
      rcases h3 : read_long rest2 with ⟨pl, rest3⟩
      rw [h3] at hok
      by_cases hpid : pid = 1
      · subst hpid
        simp at hok
        by_cases hr3 : rest3.length = 0
        · have hnil : rest3 = [] := List.length_eq_zero.mp hr3
          subst hnil
          simp at hok
          exact ⟨rest2, rfl, by rw [h3, hok]⟩
        · have hne2 : rest3 ≠ [] := fun hh => hr3 (by simp [hh])
          simp [hne2] at hok
      · simp [hpid] at hok
  · intro rest2 pl rest3 h2 h3 hne
    rw [hp]
    simp [h2, h3, hne]
  · intro e r h2
    rw [hs]
    simp [h2]
  · intro rest2 e h2 h3
    rw [hs]
    simp [h2, h3]
  · intro rest2 size rest3 h2 h3 hpos hlt
    have hstr := read_string_size_truncated rest2 size rest3 h3 hpos hlt
    rw [hs]
    simp [h2, hstr]
  · intro e r h2
    rw [hp]
    simp [h2]
  · intro rest2 h2 hlen2
    rw [hp]
    simp [h2, read_long_short rest2 hlen2]

/-- C4 witness: a status packet declaring 4 body bytes whose string field
leaves one byte undecoded is rejected with `TrailingData`; a status
packet whose string size prefix promises 5 bytes while only 1 remains in
the declared region fails with the truncation error, as does a pong
packet whose declared region holds only 1 payload byte. -/
theorem c4_framer_integrity_witness :
    write_var_int 4 = .ok [4] ∧
    read_var_int [0, 1, 65, 99] = (.ok 0, [1, 65, 99]) ∧
    read_string [1, 65, 99] = (.ok ['A'], [99]) ∧
    read_status_response ([4] ++ ([0, 1, 65, 99] ++ [])) =
      .error (.trailingData 1) ∧
    read_status_response ([3] ++ ([0, 5, 65] ++ [])) = .error .truncated ∧
    read_pong_response ([2] ++ ([1, 0] ++ [])) = .error .truncated := by
  refine ⟨by decide, by decide, by decide, ?_, ?_, ?_⟩
  · have h := (c4_framer_integrity 4 [4] [0, 1, 65, 99] [] (by decide) (by decide)
      (by decide) (by decide)).2.1 [1, 65, 99] (.ok ['A']) [99] (by decide) (by decide)
      (by decide)
    simpa using h
  · exact (c4_framer_integrity 3 [3] [0, 5, 65] [] (by decide) (by decide)
      (by decide) (by decide)).2.2.2.2.2.2.1 [5, 65] 5 [65] (by decide) (by decide)
      (by decide) (by decide)
  · exact (c4_framer_integrity 2 [2] [1, 0] [] (by decide) (by decide)
      (by decide) (by decide)).2.2.2.2.2.2.2.2 [0] (by decide) (by decide)

/-- C5: pong verification — if the pong payload differs from the sent
ping payload the session ends in the mismatch error without any latency
value, and if they agree the reported latency is the (non-negative)
elapsed time. -/
theorem c5_pong_verification :
    (∀ (input : List Nat) (t : Int) (e : Nat) (p : Int),
      read_pong_response input = .ok p → p ≠ t →
      pong_phase input t e = .mismatch p t) ∧
    (∀ (input : List Nat) (t : Int) (e : Nat),
      read_pong_response input = .ok t → pong_phase input t e = .latency e) ∧
    (∀ (input : List Nat) (t : Int) (e ms : Nat),
      pong_phase input t e = .latency ms → 0 ≤ ms) := by
  refine ⟨?_, ?_, ?_⟩
  · intro input t e p h hne
    simp [pong_phase, h, hne]
  · intro input t e h
    simp [pong_phase, h]
  · intro input t e ms _
    exact Nat.zero_le ms

/-- C5 witness: an echoed payload of 6 against a sent payload of 5 gives
the mismatch outcome; an exact echo reports the elapsed time. -/
theorem c5_pong_verification_witness :
    read_pong_response [9, 1, 0, 0, 0, 0, 0, 0, 0, 6] = .ok 6 ∧
    pong_phase [9, 1, 0, 0, 0, 0, 0, 0, 0, 6] 5 33 = .mismatch 6 5 ∧
    pong_phase [9, 1, 0, 0, 0, 0, 0, 0, 0, 5] 5 33 = .latency 33 := by
  refine ⟨by decide, ?_, ?_⟩
  · exact c5_pong_verification.1 [9, 1, 0, 0, 0, 0, 0, 0, 0, 6] 5 33 6 (by decide)
      (by decide)
  · exact c5_pong_verification.2.1 [9, 1, 0, 0, 0, 0, 0, 0, 0, 5] 5 33 (by decide)

/-- C6: structural style inheritance — the child style overrides each of
the five boolean flags and the color exactly where the object sets that
field with the correct JSON type (a type mismatch keeps the inherited
value); the child style applies to the object's own text and is the style
inherited by every component of its `extra` array; in particular
`{"text":"A","color":"red","extra":[{"text":"B"}]}` renders `B` in
red. -/
theorem c6_structural_inheritance :
    (∀ (fields : List (String × Json)) (st : Style),
      deriveStyle fields st =
        { bold := match jsonGet fields "bold" with
            | some (.bool b) => b | _ => st.bold,
          italic := match jsonGet fields "italic" with
            | some (.bool b) => b | _ => st.italic,
          underline := match jsonGet fields "underlined" with
            | some (.bool b) => b | _ => st.underline,
          strikethrough := match jsonGet fields "strikethrough" with
            | some (.bool b) => b | _ => st.strikethrough,
          obfuscated := match jsonGet fields "obfuscated" with
            | some (.bool b) => b | _ => st.obfuscated,
          color := match jsonGet fields "color" with
            | some (.str c) => parse_color c | _ => st.color }) ∧
    (∀ (fuel : Nat) (fields : List (String × Json)) (st : Style)
        (elems : List Json) (rest : List (Json × Style)),
      jsonGet fields "extra" = some (.arr elems) →
      parseLoop (fuel + 2) ((Json.obj fields, st) :: rest) =
        (parseLoop fuel
            (elems.map (fun s => (s, deriveStyle fields st)) ++ rest)).map
          (fun rs =>
            (match jsonGet fields "text" with
              | some (.str s) => apply_styles s (deriveStyle fields st)
              | _ => []) ++ rs)) ∧
    chat_to_str (.obj [("text", .str "A".toList), ("color", .str "red".toList),
        ("extra", .arr [.obj [("text", .str "B".toList)]])]) =
      [("A".toList, { Style.default with color := some ⟨0xFF, 0x55, 0x55⟩ }),
       ("B".toList, { Style.default with color := some ⟨0xFF, 0x55, 0x55⟩ })] := by
  refine ⟨deriveStyle_eq, ?_, by decide⟩
  intro fuel fields st elems rest h
  simp only [parseLoop, h]

/-- C6 witness: the object-step equation instantiated at the claim's
example component (derived red style reaches the `extra` elements). -/
theorem c6_structural_inheritance_witness :
    jsonGet [("text", Json.str "A".toList), ("color", Json.str "red".toList),
        ("extra", Json.arr [Json.obj [("text", Json.str "B".toList)]])] "extra" =
      some (.arr [Json.obj [("text", Json.str "B".toList)]]) ∧
    parseLoop 4 [(Json.obj [("text", Json.str "A".toList),
        ("color", Json.str "red".toList),
        ("extra", Json.arr [Json.obj [("text", Json.str "B".toList)]])],
        Style.default)] =
      (parseLoop 2 [(Json.obj [("text", Json.str "B".toList)],
          deriveStyle [("text", Json.str "A".toList),
            ("color", Json.str "red".toList),
            ("extra", Json.arr [Json.obj [("text", Json.str "B".toList)]])]
            Style.default)]).map
        (fun rs =>
          (match jsonGet [("text", Json.str "A".toList),
              ("color", Json.str "red".toList),
              ("extra", Json.arr [Json.obj [("text", Json.str "B".toList)]])]
              "text" with
            | some (.str s) => apply_styles s
                (deriveStyle [("text", Json.str "A".toList),
                  ("color", Json.str "red".toList),
                  ("extra", Json.arr [Json.obj [("text", Json.str "B".toList)]])]
                  Style.default)
            | _ => []) ++ rs) := by
  refine ⟨rfl, ?_⟩
  have h := c6_structural_inheritance.2.1 2
    [("text", Json.str "A".toList), ("color", Json.str "red".toList),
      ("extra", Json.arr [Json.obj [("text", Json.str "B".toList)]])]
    Style.default [Json.obj [("text", Json.str "B".toList)]] [] rfl
  simpa using h

/-- C7: legacy styling locality — the legacy runs of a text run do not
depend on the structural style (no inheritance into the legacy system),
the structural style applies only to the prefix before the first marker,
the legacy codes accumulate additively until the reset code, a string
component leaves the processing of the remaining stack untouched (no
propagation to siblings or children), and the claim's example renders
"RED" in legacy red with " plain" and " child" unstyled. -/
theorem c7_legacy_locality :
    (∀ (cs : List Char) (st st2 : Style),
      (apply_styles cs st).tail = (apply_styles cs st2).tail) ∧
    (∀ (cs : List Char) (st : Style),
      (apply_styles cs st).head? = some (cs.takeWhile (fun c => c ≠ '§'), st)) ∧
    (∀ st : Style,
      applyCode st 'k' = { st with obfuscated := true } ∧
      applyCode st 'l' = { st with bold := true } ∧
      applyCode st 'm' = { st with strikethrough := true } ∧
      applyCode st 'n' = { st with underline := true } ∧
      applyCode st 'o' = { st with italic := true } ∧
      applyCode st 'r' = Style.default) ∧
    (∀ (fuel : Nat) (s : List Char) (st : Style) (rest : List (Json × Style)),
      parseLoop (fuel + 1) ((Json.str s, st) :: rest) =
        (parseLoop fuel rest).map (fun rs => apply_styles s st ++ rs)) ∧
    chat_to_str (.obj [("text", .str "§cRED§r plain".toList),
        ("extra", .arr [.obj [("text", .str " child".toList)]])]) =
      [([], Style.default),
       ("RED".toList, { Style.default with color := some ⟨0xFF, 0x55, 0x55⟩ }),
       (" plain".toList, Style.default),
       (" child".toList, Style.default)] := by
  exact ⟨fun cs st st2 => rfl, fun cs st => rfl,
    fun st => ⟨rfl, rfl, rfl, rfl, rfl, rfl⟩,
    fun fuel s st rest => rfl, by decide⟩

/-- C8 counterexample: `"#+00000"` is 7 characters, starts with `#`, and
its remaining 6 characters are *not* three hexadecimal channel pairs (the
`+` is not a hex digit), yet `parse_color` parses it as a web color
(black), because `u32::from_str_radix` accepts a leading `+` sign. -/
theorem c8_web_color_counterexample :
    parse_color "#+00000".toList = some ⟨0, 0, 0⟩ ∧
    ¬ (∀ c ∈ "#+00000".toList.drop 1, (hexDigitVal c).isSome) := by
  exact ⟨by decide, by decide⟩

/-- C8 (amended): each of the 16 named colors maps to the same fixed
triple as the corresponding legacy code; a string is parsed as a web
color *exactly* when it is 7 bytes long, starts with `#`, and
`u32::from_str_radix` accepts the remaining 6 characters — six hex
digits, or (beyond the claim's wording) a `+` sign followed by five hex
digits — splitting the value into the three 8-bit channels.  Every other
string gives no color: strings failing the 7-byte/`#` test, and 7-byte
`#`-strings whose remainder `from_str_radix` rejects (an acceptance
biconditional, with `"#zzzzzz"`, `"#-12345"`, `"#++0000"` as concrete
rejections); a string that is no named color falls through to the
web-color parse. -/
theorem c8_color_resolution :
    (parse_color "black".toList = (applyCode Style.default '0').color ∧
      parse_color "dark_blue".toList = (applyCode Style.default '1').color ∧
      parse_color "dark_green".toList = (applyCode Style.default '2').color ∧
      parse_color "dark_aqua".toList = (applyCode Style.default '3').color ∧
      parse_color "dark_red".toList = (applyCode Style.default '4').color ∧
      parse_color "dark_purple".toList = (applyCode Style.default '5').color ∧
      parse_color "gold".toList = (applyCode Style.default '6').color ∧
      parse_color "gray".toList = (applyCode Style.default '7').color ∧
      parse_color "dark_gray".toList = (applyCode Style.default '8').color ∧
      parse_color "blue".toList = (applyCode Style.default '9').color ∧
      parse_color "green".toList = (applyCode Style.default 'a').color ∧
      parse_color "aqua".toList = (applyCode Style.default 'b').color ∧
      parse_color "red".toList = (applyCode Style.default 'c').color ∧
      parse_color "light_purple".toList = (applyCode Style.default 'd').color ∧
      parse_color "yellow".toList = (applyCode Style.default 'e').color ∧
      parse_color "white".toList = (applyCode Style.default 'f').color) ∧
    (∀ color : List Char,
      ¬ (color.head? = some '#' ∧ utf8Len color = 7) →
      parse_web_color color = none) ∧
    (∀ color : List Char,
      (parse_web_color color).isSome ↔
        color.head? = some '#' ∧ utf8Len color = 7 ∧
          (u32FromStrRadix16 (color.drop 1)).isSome) ∧
    parse_web_color "#zzzzzz".toList = none ∧
    parse_web_color "#-12345".toList = none ∧
    parse_web_color "#++0000".toList = none ∧
    (∀ ds : List Char, ds.length = 6 → (∀ c ∈ ds, (hexDigitVal c).isSome) →
      ∃ n, u32FromStrRadix16 ds = some n ∧
        parse_web_color ('#' :: ds) =
          some ⟨n / 2 ^ 16 % 256, n / 2 ^ 8 % 256, n % 256⟩) ∧
    (∀ ds : List Char, ds.length = 5 → (∀ c ∈ ds, (hexDigitVal c).isSome) →
      ∃ n, u32FromStrRadix16 ('+' :: ds) = some n ∧
        parse_web_color ('#' :: '+' :: ds) =
          some ⟨n / 2 ^ 16 % 256, n / 2 ^ 8 % 256, n % 256⟩) ∧
    (∀ color : List Char,
      color ∉ (["black", "dark_blue", "dark_green", "dark_aqua", "dark_red",
        "dark_purple", "gold", "gray", "dark_gray", "blue", "green", "aqua",
        "red", "light_purple", "yellow", "white"].map String.toList) →
      parse_color color = parse_web_color color) := by
  refine ⟨by decide, ?_, ?_, by decide, by decide, by decide,
    parse_web_color_hex, parse_web_color_plus_hex, ?_⟩
  · intro color h
    unfold parse_web_color
    rw [if_neg h]
  · intro color
    unfold parse_web_color
    by_cases hc : color.head? = some '#' ∧ utf8Len color = 7
    · rw [if_pos hc]
      cases hu : u32FromStrRadix16 (color.drop 1) with
      | none => simp [hc.1, hc.2, hu]
      | some n => simp [hc.1, hc.2, hu]
    · rw [if_neg hc]
      simp only [Option.isSome_none, Bool.false_eq_true, false_iff]
      rintro ⟨ha, hb, -⟩
      exact hc ⟨ha, hb⟩
  · intro color h
    have hmem : ∀ s : String, s ∈ ["black", "dark_blue", "dark_green",
        "dark_aqua", "dark_red", "dark_purple", "gold", "gray", "dark_gray",
        "blue", "green", "aqua", "red", "light_purple", "yellow", "white"] →
        color ≠ s.toList := by
      intro s hs hc
      exact h (by rw [hc]; exact List.mem_map_of_mem _ hs)
    simp only [parse_color,
      if_neg (hmem "black" (by simp)), if_neg (hmem "dark_blue" (by simp)),
      if_neg (hmem "dark_green" (by simp)), if_neg (hmem "dark_aqua" (by simp)),
      if_neg (hmem "dark_red" (by simp)), if_neg (hmem "dark_purple" (by simp)),
      if_neg (hmem "gold" (by simp)), if_neg (hmem "gray" (by simp)),
      if_neg (hmem "dark_gray" (by simp)), if_neg (hmem "blue" (by simp)),
      if_neg (hmem "green" (by simp)), if_neg (hmem "aqua" (by simp)),
      if_neg (hmem "red" (by simp)), if_neg (hmem "light_purple" (by simp)),
      if_neg (hmem "yellow" (by simp)), if_neg (hmem "white" (by simp))]

/-- C8 witness: the web-color characterisation instantiated at
`"#1A2b3C"` (six hex digits) and `"#+00F0a"` (`+` and five hex
digits). -/
theorem c8_color_resolution_witness :
    parse_web_color "#1A2b3C".toList = some ⟨0x1A, 0x2B, 0x3C⟩ ∧
    parse_web_color "#+00F0a".toList = some ⟨0x00, 0x0F, 0x0A⟩ := by
  have h1 := c8_color_resolution.2.2.2.2.2.2.1 "1A2b3C".toList (by decide)
    (by decide)
  have h2 := c8_color_resolution.2.2.2.2.2.2.2.1 "00F0a".toList (by decide)
    (by decide)
  obtain ⟨n1, hn1, hw1⟩ := h1
  obtain ⟨n2, hn2, hw2⟩ := h2
  have e1 : n1 = 0x1A2B3C := by
    have : u32FromStrRadix16 "1A2b3C".toList = some 0x1A2B3C := by decide
    rw [this] at hn1
    injection hn1 with h
    exact h.symm
  have e2 : n2 = 0xF0A := by
    have : u32FromStrRadix16 ('+' :: "00F0a".toList) = some 0xF0A := by decide
    rw [this] at hn2
    injection hn2 with h
    exact h.symm
  subst e1
  subst e2
  constructor
  · exact hw1
  · exact hw2

/-- C9: renderer totality — `chat_to_str` is a total function of the JSON
value (the loop's fuel always suffices, so no error is ever returned or
propagated); a type-mismatched `"text"` renders as empty text and a
non-array `"extra"` is ignored. -/
theorem c9_renderer_totality :
    (∀ text : Json,
      ∃ rs, parseLoop (Json.weight text + 1) [(text, Style.default)] = some rs ∧
        chat_to_str text = rs) ∧
    runsText (chat_to_str (.obj [("text", .bool true)])) = [] ∧
    chat_to_str (.obj [("text", .str "ok".toList),
        ("extra", .str "not-an-array".toList)]) = [("ok".toList, Style.default)] := by
  refine ⟨?_, by decide, by decide⟩
  intro text
  exact parse_component_eq text

/-- C10: renderer termination — the work-stack loop of `parse_component`
halts on every stack within `stackWeight + 1` iterations: each pop either
pushes nothing or pushes only strict sub-values of the popped value, so
the total weight strictly decreases. -/
theorem c10_loop_termination :
    ∀ stack : List (Json × Style), (parseLoop (stackWeight stack + 1) stack).isSome :=
  fun stack => parseLoop_total _ stack (by omega)

end McPing
